import Mathlib

/-!
Shallow embedding of the vuu viewport column-set and module-factory code
(`ViewPortColumns.scala` and the `TableDefs` / `ModuleFactoryNode` module
assembly code), with theorems checking the natural-language specification
against it.
-/

namespace Vuu

/-- Primitive data-type tag of a column (string/int/long/double/boolean/char). -/
inductive DataType where
  | StringT
  | IntT
  | LongT
  | DoubleT
  | BooleanT
  | CharT
deriving DecidableEq

/-- Values stored in rows.  `VNull` models Scala `null` / absent values. -/
inductive VuuValue where
  | VString (s : String)
  | VInt (n : Int)
  | VBool (b : Bool)
  | VNull
deriving DecidableEq

/-- A row's data: a finite mapping from column name to value, represented as
an association list (the Scala code uses `Map[String, Any]`). -/
abbrev RowMap := List (String × VuuValue)

/-- A column of a column set.  Scala has an abstract `Column` with subclass
`CalculatedColumn`; here a column is calculated exactly when `calculated`
carries the evaluation function of its expression (a pure function of the
full source row, as the spec describes). -/
structure Column where
  name : String
  dataType : DataType
  calculated : Option (RowMap → VuuValue)

/-- `c.isInstanceOf[CalculatedColumn]` of the Scala code. -/
def Column.isCalculated (c : Column) : Bool :=
  c.calculated.isSome

/-- The projection used by `ViewPortColumns.equals`: only name and data type
participate in column-set equality. -/
def colPair (c : Column) : String × DataType :=
  (c.name, c.dataType)

/-- `RowWithData(key, data)` — the row implementation produced by
`pullRowAlwaysFilter` and consumed as `RowData`. -/
structure RowWithData where
  key : String
  data : RowMap
deriving DecidableEq

/-- Modelled from the spec: `RowData.get(column)` resolves a column's value
against the row — reading the physical value stored under the column's name,
or evaluating the calculated expression against the full source row
(`RowWithData` itself is not under `src/`). -/
def RowWithData.get (row : RowWithData) (c : Column) : VuuValue :=
  match c.calculated with
  | some expr => expr row.data
  | none => (row.data.lookup c.name).getD VuuValue.VNull

/-- One step of Scala `List[(String, Any)].toMap`: adding a binding to a map,
a later binding for an existing key overwrites the earlier one. -/
def mapInsert (m : RowMap) (k : String) (v : VuuValue) : RowMap :=
  if m.any (fun q => q.1 == k) then
    m.map (fun q => if q.1 == k then (k, v) else q)
  else
    m ++ [(k, v)]

/-- Scala `List[(String, Any)].toMap`: fold the bindings into a map, later
bindings winning on key collision. -/
def listToMap (l : RowMap) : RowMap :=
  l.foldl (fun m p => mapInsert m p.1 p.2) []

/-- `ViewPortColumns`: the column set of a viewport.  The Scala class holds a
mutable `@volatile var columns` and a `lazy val hasCalculatedColumn`; the
state is embedded explicitly, `hasCalcMemo = none` meaning the lazy val has
not been forced yet and `some b` meaning it was forced to `b`. -/
structure ViewPortColumns where
  columns : List Column
  hasCalcMemo : Option Bool

/-- `new ViewPortColumns(sourceColumns)`: the lazy val starts unevaluated. -/
def ViewPortColumns.create (sourceColumns : List Column) : ViewPortColumns :=
  ⟨sourceColumns, none⟩

/-- `addColumn(column)`: `columns = columns ++ List(column)`.  The lazy-val
cell is untouched (appending never re-evaluates `hasCalculatedColumn`). -/
def ViewPortColumns.addColumn (vpc : ViewPortColumns) (column : Column) : ViewPortColumns :=
  { vpc with columns := vpc.columns ++ [column] }

/-- `columnExists(name)`: literal membership test on the current columns. -/
def ViewPortColumns.columnExists (vpc : ViewPortColumns) (name : String) : Bool :=
  vpc.columns.any (fun c => c.name == name)

/-- `getColumns()`. -/
def ViewPortColumns.getColumns (vpc : ViewPortColumns) : List Column :=
  vpc.columns

/-- `count()`. -/
def ViewPortColumns.count (vpc : ViewPortColumns) : Nat :=
  vpc.columns.length

/-- Modelled from the spec: `ViewPortColumnCreator.isCalculatedColumn(name)`
(not under `src/`) — detects the distinguished textual form marking a
calculated-column reference, written `calcName:dataType:expression`. -/
def isCalculatedColumnName (name : String) : Bool :=
  name.toList.any (fun ch => ch == ':')

/-- Modelled from the spec: `ViewPortColumnCreator.parseCalcColumn(name)`
(not under `src/`) — splits the reference form `calcName:dataType:expression`
into its three components; the first component is the column's name. -/
def parseCalcColumn (name : String) : String × String × String :=
  let cs := name.toList
  let n := cs.takeWhile (fun ch => ch ≠ ':')
  let rest := (cs.dropWhile (fun ch => ch ≠ ':')).drop 1
  let d := rest.takeWhile (fun ch => ch ≠ ':')
  let e := (rest.dropWhile (fun ch => ch ≠ ':')).drop 1
  (⟨n⟩, ⟨d⟩, ⟨e⟩)

/-- `getEvaluatedName(name)`: resolve calculated-column reference syntax to
the underlying column name, leave plain names alone. -/
def getEvaluatedName (name : String) : String :=
  if isCalculatedColumnName name then (parseCalcColumn name).1 else name

/-- `getColumnForName(name)`: look up by the evaluated name. -/
def ViewPortColumns.getColumnForName (vpc : ViewPortColumns) (name : String) : Option Column :=
  vpc.columns.find? (fun c => c.name == getEvaluatedName name)

/-- Forcing the `lazy val hasCalculatedColumn`: on first access it evaluates
`columns.exists(c => c.isInstanceOf[CalculatedColumn])` against the current
columns and caches the result; later accesses return the cache. -/
def ViewPortColumns.forceHasCalc (vpc : ViewPortColumns) : Bool × ViewPortColumns :=
  match vpc.hasCalcMemo with
  | some b => (b, vpc)
  | none =>
    let b := vpc.columns.any Column.isCalculated
    (b, { vpc with hasCalcMemo := some b })

/-- `pullRowAlwaysFilter(key, row)`:
`RowWithData(key, getColumns().map(c => c.name -> row.get(c)).toMap)`. -/
def ViewPortColumns.pullRowAlwaysFilter (vpc : ViewPortColumns) (key : String)
    (row : RowWithData) : RowWithData :=
  ⟨key, listToMap (vpc.getColumns.map (fun c => (c.name, row.get c)))⟩

/-- `pullRow(key, row)`: fast path returning the source row when the (lazily
memoized) `hasCalculatedColumn` is false, else project through
`pullRowAlwaysFilter`.  Returns the row together with the instance state
after the lazy val has been forced. -/
def ViewPortColumns.pullRow (vpc : ViewPortColumns) (key : String)
    (row : RowWithData) : RowWithData × ViewPortColumns :=
  let fc := vpc.forceHasCalc
  if fc.1 then (fc.2.pullRowAlwaysFilter key row, fc.2) else (row, fc.2)

/-- The comparison `sortBy(c => c.name)` used by `equals`: a stable sort of
the columns by name (Scala's `sortBy` is stable; so is insertion sort). -/
def nameLe (a b : Column) : Prop :=
  a.name.toList ≤ b.name.toList

instance : DecidableRel nameLe := fun a b =>
  inferInstanceAs (Decidable (a.name.toList ≤ b.name.toList))

instance : IsTotal Column nameLe :=
  ⟨fun a b => le_total a.name.toList b.name.toList⟩

instance : IsTrans Column nameLe :=
  ⟨fun _ _ _ hab hbc => le_trans hab hbc⟩

/-- `columns.sortBy(c => c.name)`. -/
def sortByName (cols : List Column) : List Column :=
  List.insertionSort nameLe cols

/-- The predicate counted by `equals`:
`columnPair._1.name != columnPair._2.name || columnPair._1.dataType != columnPair._2.dataType`. -/
def colMismatch (p : Column × Column) : Bool :=
  !(p.1.name == p.2.name) || !(p.1.dataType == p.2.dataType)

/-- `ViewPortColumns.equals(that)`: same size and zero name/dataType
mismatches between the two name-sorted column lists. -/
def ViewPortColumns.equals (a b : ViewPortColumns) : Bool :=
  a.columns.length == b.columns.length &&
    ((sortByName a.columns).zip (sortByName b.columns)).countP colMismatch == 0

/-! ## Module factory (`TableDefs`, `ModuleFactoryNode`, `asModule`) -/

/-- Modelled from the spec: the server handle passed to provider and RPC
factories (interface only, out of scope). -/
structure VuuServer where
  serverId : Nat
deriving DecidableEq

/-- Modelled from the spec: a data table, identified by name (interface
only as far as module assembly is concerned). -/
structure DataTable where
  tableName : String
deriving DecidableEq

/-- Modelled from the spec: a provider bound to one data table (interface
only). -/
structure Provider where
  providerId : Nat
deriving DecidableEq

/-- Modelled from the spec: an RPC handler (interface only). -/
structure RpcHandler where
  handlerId : Nat
deriving DecidableEq

/-- Modelled from the spec: a table definition — declarative descriptor
(name, column set, key column) used to construct a data table. -/
structure TableDef where
  name : String
  columns : List Column
  keyField : String

/-- `JoinTableDef` extends `TableDef`; module assembly uses it only as a
table definition. -/
abbrev JoinTableDef := TableDef

/-- `StaticServedResource(uriDirectory, path, canBrowse)`. -/
structure StaticServedResource where
  uriDirectory : String
  path : String
  canBrowse : Bool

/-- A join-producing function.  In Scala it receives the whole `TableDefs`
and may only usefully read the realized definitions (the other two fields
are empty at every invocation inside `asModule`); it can fail (Scala: throw,
via `Option.get`) when a definition it depends on is not yet realized, which
is modelled by an `Option` result. -/
abbrev JoinDefFunc := List TableDef → Option JoinTableDef

/-- `TableDefs(realizedTableDefs, tableDefs, joinDefs)`. -/
structure TableDefs where
  realizedTableDefs : List TableDef
  tableDefs : List (TableDef × (DataTable → VuuServer → Provider))
  joinDefs : List JoinDefFunc

/-- `TableDefs.add(tableDef, func)`. -/
def TableDefs.add (tds : TableDefs) (tableDef : TableDef)
    (func : DataTable → VuuServer → Provider) : TableDefs :=
  ⟨tds.realizedTableDefs, tds.tableDefs ++ [(tableDef, func)], tds.joinDefs⟩

/-- `TableDefs.addRealized(tableDef)`. -/
def TableDefs.addRealized (tds : TableDefs) (tableDef : TableDef) : TableDefs :=
  ⟨tds.realizedTableDefs ++ [tableDef], tds.tableDefs, tds.joinDefs⟩

/-- `TableDefs.addJoin(func)`. -/
def TableDefs.addJoin (tds : TableDefs) (func : JoinDefFunc) : TableDefs :=
  ⟨tds.realizedTableDefs, tds.tableDefs, tds.joinDefs ++ [func]⟩

/-- `TableDefs.get(name)`: `realizedTableDefs.find(_.name == name).get` — the
`Option.get` throws on a missing name, modelled by `none`. -/
def TableDefs.get (tds : TableDefs) (name : String) : Option TableDef :=
  tds.realizedTableDefs.find? (fun td => td.name == name)

/-- The module produced by `asModule` (`ViewServerModule`). -/
structure ViewServerModule where
  name : String
  tableDefs : List TableDef
  serializationMixin : Option Nat
  rpcHandlerUnrealized : Option (VuuServer → RpcHandler)
  getProviderForTable : DataTable → VuuServer → Option Provider
  staticFileResources : List StaticServedResource

/-- `ModuleFactoryNode(tableDefs, rpc, vsName, staticServedResources)`. -/
structure ModuleFactoryNode where
  tableDefs : TableDefs
  rpc : List (VuuServer → RpcHandler)
  vsName : String
  staticServedResources : List StaticServedResource

/-- `addTable(tableDef, func)`. -/
def ModuleFactoryNode.addTable (node : ModuleFactoryNode) (tableDef : TableDef)
    (func : DataTable → VuuServer → Provider) : ModuleFactoryNode :=
  ⟨node.tableDefs.add tableDef func, node.rpc, node.vsName, node.staticServedResources⟩

/-- `addJoinTable(func)`. -/
def ModuleFactoryNode.addJoinTable (node : ModuleFactoryNode)
    (func : JoinDefFunc) : ModuleFactoryNode :=
  ⟨node.tableDefs.addJoin func, node.rpc, node.vsName, node.staticServedResources⟩

/-- `addRpcHandler(rpcFunc)`. -/
def ModuleFactoryNode.addRpcHandler (node : ModuleFactoryNode)
    (rpcFunc : VuuServer → RpcHandler) : ModuleFactoryNode :=
  ⟨node.tableDefs, node.rpc ++ [rpcFunc], node.vsName, node.staticServedResources⟩

/-- `addStaticResource(uriDirectory, path, canBrowse)`. -/
def ModuleFactoryNode.addStaticResource (node : ModuleFactoryNode)
    (uriDirectory : String) (path : String) (canBrowse : Bool) : ModuleFactoryNode :=
  ⟨node.tableDefs, node.rpc, node.vsName,
    node.staticServedResources ++ [StaticServedResource.mk uriDirectory path canBrowse]⟩

/-- The `foreach` loop of `asModule` over the pending join functions,
threading the mutable `mutableTableDefs` through `addRealized`; a join
function that fails (depends on a not-yet-realized definition) aborts the
realization (Scala: the thrown exception escapes `asModule`). -/
def runJoins : TableDefs → List JoinDefFunc → Option TableDefs
  | tds, [] => some tds
  | tds, f :: fs =>
    match f tds.realizedTableDefs with
    | none => none
    | some j => runJoins (tds.addRealized j) fs

/-- `asModule()`: realize the joins over the base table definitions in
declaration order, then freeze the module. -/
def ModuleFactoryNode.asModule (node : ModuleFactoryNode) : Option ViewServerModule :=
  let baseTables := node.tableDefs.tableDefs
  let justBaseTables := baseTables.map Prod.fst
  match runJoins (TableDefs.mk justBaseTables [] []) node.tableDefs.joinDefs with
  | none => none
  | some finalDefs =>
    some
      { name := node.vsName
        tableDefs := finalDefs.realizedTableDefs
        serializationMixin := none
        rpcHandlerUnrealized := node.rpc.head?
        getProviderForTable := fun table server =>
          (baseTables.find? (fun p => p.1.name == table.tableName)).map
            (fun p => p.2 table server)
        staticFileResources := node.staticServedResources }

/-- `withNamespace(ns)`. -/
def withNamespace (ns : String) : ModuleFactoryNode :=
  ⟨TableDefs.mk [] [] [], [], ns, []⟩

/-- Reference recursion for the claim about join realization: the results of
the pending join functions when each is invoked, in declaration order, on
the base definitions extended with the results of all earlier join
functions; `none` when some join function fails on the list it is given.
(This definition follows the spec's words, to be compared with `runJoins`
from the source.) -/
def joinResults : List TableDef → List JoinDefFunc → Option (List TableDef)
  | _, [] => some []
  | base, f :: fs =>
    match f base with
    | none => none
    | some r => (joinResults (base ++ [r]) fs).map (fun rs => r :: rs)

/-- The strict name order on (name, dataType) pairs used to show that a
name-sorted list of columns with pairwise-distinct names is determined by
its multiset of pairs. -/
def pairNameLt (p q : String × DataType) : Prop :=
  p.1.toList < q.1.toList

/-! ## Concrete example data (used by witnesses) -/

/-- A physical integer column `qty`. -/
def qtyDemoCol : Column :=
  ⟨"qty", DataType.IntT, none⟩

/-- A calculated column named `calc`. -/
def calcDemoCol : Column :=
  ⟨"calc", DataType.LongT, some (fun _ => VuuValue.VNull)⟩

/-- A column set holding a physical and a calculated column. -/
def vpcDemo : ViewPortColumns :=
  ViewPortColumns.create [qtyDemoCol, calcDemoCol]

/-- A base table definition named `orders`. -/
def ordersDef : TableDef :=
  ⟨"orders", [qtyDemoCol], "id"⟩

/-- A provider factory for `orders`. -/
def provOrders : DataTable → VuuServer → Provider :=
  fun _ _ => ⟨1⟩

/-- Two RPC handler factories. -/
def rpcOne : VuuServer → RpcHandler :=
  fun _ => ⟨1⟩

def rpcTwo : VuuServer → RpcHandler :=
  fun _ => ⟨2⟩

/-- A join on the base table `orders`. -/
def joinOne : JoinDefFunc :=
  fun defs => (defs.find? (fun td => td.name == "orders")).map
    (fun _ => ⟨"ordersPrices", [], "id"⟩)

/-- A join on the output of `joinOne`, exercising join-on-join realization. -/
def joinTwo : JoinDefFunc :=
  fun defs => (defs.find? (fun td => td.name == "ordersPrices")).map
    (fun _ => ⟨"ordersPricesFx", [], "id"⟩)

/-- A module node with one base table and two chained joins. -/
def demoNode : ModuleFactoryNode :=
  (((withNamespace "DEMO").addTable ordersDef provOrders).addJoinTable joinOne).addJoinTable
    joinTwo

/-- A module node with a single registered RPC handler. -/
def demoRpcNode : ModuleFactoryNode :=
  (withNamespace "RPC").addRpcHandler rpcOne

/-- The module obtained from `demoRpcNode` after appending a second RPC
handler (the `getD` fallback is never taken: realization succeeds). -/
def demoRpcModule : ViewServerModule :=
  (([rpcTwo].foldl ModuleFactoryNode.addRpcHandler demoRpcNode).asModule).getD
    ⟨"", [], none, none, fun _ _ => none, []⟩

/-! ## Helper lemmas -/

theorem mapInsert_of_not_mem (acc : RowMap) (k : String) (v : VuuValue)
    (h : k ∉ acc.map Prod.fst) : mapInsert acc k v = acc ++ [(k, v)] := by
  unfold mapInsert
  have hany : acc.any (fun q => q.1 == k) = false := by
    simp only [List.any_eq_false, beq_iff_eq]
    intro q hq hqk
    exact h (hqk ▸ List.mem_map_of_mem Prod.fst hq)
  simp [hany]

theorem foldl_mapInsert_of_nodup (l : RowMap) :
    ∀ acc : RowMap, (acc.map Prod.fst ++ l.map Prod.fst).Nodup →
      l.foldl (fun m p => mapInsert m p.1 p.2) acc = acc ++ l := by
  induction l with
  | nil => intro acc _; simp
  | cons p t ih =>
    intro acc h
    have hmem : p.1 ∉ acc.map Prod.fst := by
      rcases List.nodup_append.mp h with ⟨_, _, hdisj⟩
      intro hin
      exact hdisj hin (by simp)
    have hstep : mapInsert acc p.1 p.2 = acc ++ [p] := by
      rw [mapInsert_of_not_mem acc p.1 p.2 hmem]
    have h' : ((acc ++ [p]).map Prod.fst ++ t.map Prod.fst).Nodup := by
      simpa [List.append_assoc] using h
    calc (p :: t).foldl (fun m q => mapInsert m q.1 q.2) acc
        = t.foldl (fun m q => mapInsert m q.1 q.2) (mapInsert acc p.1 p.2) := rfl
      _ = t.foldl (fun m q => mapInsert m q.1 q.2) (acc ++ [p]) := by rw [hstep]
      _ = (acc ++ [p]) ++ t := ih (acc ++ [p]) h'
      _ = acc ++ p :: t := by simp

theorem listToMap_of_nodup (l : RowMap) (h : (l.map Prod.fst).Nodup) :
    listToMap l = l := by
  have := foldl_mapInsert_of_nodup l [] (by simpa using h)
  simpa [listToMap] using this

/-! ## Claim theorems -/

/-- C1: `pullRow(key, row)` returns the source row unchanged when the column
set has no calculated column, and otherwise a new row holding exactly the
column set's columns, each value read from the physical value or the
evaluated calculated expression against the full source row. -/
theorem pullRow_fastPath_and_projection (cols : List Column) (key : String)
    (row : RowWithData) (hnd : (cols.map Column.name).Nodup) :
    (cols.any Column.isCalculated = false →
      ((ViewPortColumns.create cols).pullRow key row).1 = row)
    ∧ (cols.any Column.isCalculated = true →
      ((ViewPortColumns.create cols).pullRow key row).1
        = ⟨key, cols.map (fun c => (c.name, row.get c))⟩) := by
  constructor
  · intro h
    simp [ViewPortColumns.pullRow, ViewPortColumns.create, ViewPortColumns.forceHasCalc, h]
  · intro h
    have hkeys : ((cols.map (fun c => (c.name, row.get c))).map Prod.fst).Nodup := by
      simpa [List.map_map, Function.comp] using hnd
    simp [ViewPortColumns.pullRow, ViewPortColumns.create, ViewPortColumns.forceHasCalc, h,
      ViewPortColumns.pullRowAlwaysFilter, ViewPortColumns.getColumns,
      listToMap_of_nodup _ hkeys]

/-- C1 witness: the spec's own scenario — column set `[qty:int, calc:qty*2]`,
row `{qty:5}` projects to `{qty:5, calc:10}`, while `[qty]` alone passes the
row through untouched. -/
theorem pullRow_fastPath_and_projection_witness :
    (([⟨"qty", DataType.IntT, none⟩,
       ⟨"calc", DataType.LongT, some (fun d =>
          match d.lookup "qty" with
          | some (VuuValue.VInt n) => VuuValue.VInt (2 * n)
          | _ => VuuValue.VNull)⟩] : List Column).map Column.name).Nodup
    ∧ (([⟨"qty", DataType.IntT, none⟩,
         ⟨"calc", DataType.LongT, some (fun d =>
            match d.lookup "qty" with
            | some (VuuValue.VInt n) => VuuValue.VInt (2 * n)
            | _ => VuuValue.VNull)⟩] : List Column).any Column.isCalculated = true →
        ((ViewPortColumns.create [⟨"qty", DataType.IntT, none⟩,
            ⟨"calc", DataType.LongT, some (fun d =>
              match d.lookup "qty" with
              | some (VuuValue.VInt n) => VuuValue.VInt (2 * n)
              | _ => VuuValue.VNull)⟩]).pullRow "1" ⟨"1", [("qty", VuuValue.VInt 5)]⟩).1
          = ⟨"1", ([⟨"qty", DataType.IntT, none⟩,
              ⟨"calc", DataType.LongT, some (fun d =>
                match d.lookup "qty" with
                | some (VuuValue.VInt n) => VuuValue.VInt (2 * n)
                | _ => VuuValue.VNull)⟩] : List Column).map
                  (fun c => (c.name, RowWithData.get ⟨"1", [("qty", VuuValue.VInt 5)]⟩ c))⟩) :=
  ⟨by decide,
    (pullRow_fastPath_and_projection _ "1" ⟨"1", [("qty", VuuValue.VInt 5)]⟩ (by decide)).2⟩

theorem zip_countP_eq_zero_of_map_colPair_eq :
    ∀ (xs ys : List Column), xs.map colPair = ys.map colPair →
      (xs.zip ys).countP colMismatch = 0
  | [], _, _ => by simp
  | _ :: _, [], h => by simp at h
  | x :: xs, y :: ys, h => by
    simp only [List.map_cons, List.cons.injEq] at h
    obtain ⟨hp, ht⟩ := h
    have h1 : x.name = y.name := congrArg Prod.fst hp
    have h2 : x.dataType = y.dataType := congrArg Prod.snd hp
    have hx : colMismatch (x, y) = false := by simp [colMismatch, h1, h2]
    simp [List.zip_cons_cons, List.countP_cons, hx,
      zip_countP_eq_zero_of_map_colPair_eq xs ys ht]

theorem map_colPair_eq_of_zip_countP_eq_zero :
    ∀ (xs ys : List Column), xs.length = ys.length →
      (xs.zip ys).countP colMismatch = 0 → xs.map colPair = ys.map colPair
  | [], [], _, _ => rfl
  | _ :: _, [], h, _ => by simp at h
  | [], _ :: _, h, _ => by simp at h
  | x :: xs, y :: ys, h, hc => by
    have hlen : xs.length = ys.length := by simpa using h
    rw [List.zip_cons_cons, List.countP_cons] at hc
    cases hcm : colMismatch (x, y) with
    | true => simp [hcm] at hc
    | false =>
      rw [hcm] at hc
      simp only [if_neg Bool.false_ne_true, Nat.add_zero] at hc
      have hnames : x.name = y.name := by
        have := hcm
        simp only [colMismatch, Bool.or_eq_false_iff, Bool.not_eq_false', beq_iff_eq] at this
        exact this.1
      have hdt : x.dataType = y.dataType := by
        have := hcm
        simp only [colMismatch, Bool.or_eq_false_iff, Bool.not_eq_false', beq_iff_eq] at this
        exact this.2
      simp only [List.map_cons, List.cons.injEq]
      exact ⟨by simp [colPair, hnames, hdt],
        map_colPair_eq_of_zip_countP_eq_zero xs ys hlen hc⟩

theorem string_toList_inj {s t : String} (h : s.toList = t.toList) : s = t := by
  cases s
  cases t
  exact congrArg String.mk (by simpa [String.toList] using h)

theorem sorted_pairNameLt_of_nodup (xs : List Column)
    (hnd : (xs.map Column.name).Nodup) :
    ((sortByName xs).map colPair).Pairwise pairNameLt := by
  have hsorted : (sortByName xs).Pairwise nameLe :=
    List.sorted_insertionSort nameLe xs
  have hnd' : ((sortByName xs).map Column.name).Nodup := by
    have hperm : ((sortByName xs).map Column.name).Perm (xs.map Column.name) :=
      (List.perm_insertionSort nameLe xs).map Column.name
    exact hperm.nodup_iff.mpr hnd
  have hne : (sortByName xs).Pairwise (fun a b => a.name ≠ b.name) :=
    List.pairwise_map.mp hnd'
  have hcomb : (sortByName xs).Pairwise
      (fun a b => nameLe a b ∧ a.name ≠ b.name) := hsorted.and hne
  refine List.Pairwise.map colPair ?_ hcomb
  intro a b hab
  have hle : a.name.toList ≤ b.name.toList := hab.1
  have hne' : a.name.toList ≠ b.name.toList := fun hEq =>
    hab.2 (string_toList_inj hEq)
  exact lt_of_le_of_ne hle hne'

/-- C3: column-set equality is order-independent on column sets with unique
column names (the data-model invariant): `equals` returns `true` exactly when
the two column sets carry the same multiset of (name, dataType) pairs. -/
theorem columnSet_equality_order_independent (a b : ViewPortColumns)
    (ha : (a.columns.map Column.name).Nodup) (hb : (b.columns.map Column.name).Nodup) :
    a.equals b = true ↔ (a.columns.map colPair).Perm (b.columns.map colPair) := by
  have hpa : ((sortByName a.columns).map colPair).Perm (a.columns.map colPair) :=
    (List.perm_insertionSort nameLe a.columns).map colPair
  have hpb : ((sortByName b.columns).map colPair).Perm (b.columns.map colPair) :=
    (List.perm_insertionSort nameLe b.columns).map colPair
  constructor
  · intro h
    simp only [ViewPortColumns.equals, Bool.and_eq_true, beq_iff_eq] at h
    obtain ⟨hlen, hcnt⟩ := h
    have hslen : (sortByName a.columns).length = (sortByName b.columns).length := by
      rw [sortByName, sortByName, List.length_insertionSort, List.length_insertionSort]
      exact hlen
    have hmap := map_colPair_eq_of_zip_countP_eq_zero _ _ hslen hcnt
    exact hpa.symm.trans (hmap ▸ hpb)
  · intro h
    have hsortedperm : ((sortByName a.columns).map colPair).Perm
        ((sortByName b.columns).map colPair) :=
      (hpa.trans h).trans hpb.symm
    have hsa := sorted_pairNameLt_of_nodup a.columns ha
    have hsb := sorted_pairNameLt_of_nodup b.columns hb
    haveI : IsAntisymm (String × DataType) pairNameLt :=
      ⟨fun p q h1 h2 => absurd (lt_trans h1 h2) (lt_irrefl _)⟩
    have heq : (sortByName a.columns).map colPair = (sortByName b.columns).map colPair :=
      List.eq_of_perm_of_sorted hsortedperm hsa hsb
    have hlen : a.columns.length = b.columns.length := by
      have := h.length_eq
      simpa using this
    have hcnt := zip_countP_eq_zero_of_map_colPair_eq _ _ heq
    simp [ViewPortColumns.equals, hlen, hcnt]

/-- C3 witness: `ColumnSet([A,B])` equals `ColumnSet([B,A])` — the theorem
instantiated at two concrete two-column sets declared in opposite orders. -/
theorem columnSet_equality_order_independent_witness :
    (((ViewPortColumns.create [⟨"A", DataType.IntT, none⟩, ⟨"B", DataType.StringT, none⟩]).columns.map
        Column.name).Nodup)
    ∧ (((ViewPortColumns.create [⟨"B", DataType.StringT, none⟩, ⟨"A", DataType.IntT, none⟩]).columns.map
        Column.name).Nodup)
    ∧ ((ViewPortColumns.create [⟨"A", DataType.IntT, none⟩, ⟨"B", DataType.StringT, none⟩]).equals
        (ViewPortColumns.create [⟨"B", DataType.StringT, none⟩, ⟨"A", DataType.IntT, none⟩]) = true
      ↔ ((ViewPortColumns.create [⟨"A", DataType.IntT, none⟩, ⟨"B", DataType.StringT, none⟩]).columns.map
          colPair).Perm
        ((ViewPortColumns.create [⟨"B", DataType.StringT, none⟩, ⟨"A", DataType.IntT, none⟩]).columns.map
          colPair)) :=
  ⟨by decide, by decide,
    columnSet_equality_order_independent _ _ (by decide) (by decide)⟩

/-- C4 counterexample: re-adding a column identical to an existing one is not
idempotent — the column set grows (the code appends unconditionally). -/
theorem addColumn_not_idempotent_counterexample :
    ((ViewPortColumns.create [⟨"qty", DataType.IntT, none⟩]).addColumn
        ⟨"qty", DataType.IntT, none⟩).columns.length
      ≠ (ViewPortColumns.create [⟨"qty", DataType.IntT, none⟩]).columns.length := by
  decide

/-- C4 (amended): `addColumn(col)` unconditionally appends the column — it
never fails with a duplicate-column error, performs no duplicate check, and
re-adding an identical column appends a second copy.  The memoized
calculated-column flag is untouched. -/
theorem addColumn_always_appends (vpc : ViewPortColumns) (c : Column) :
    (vpc.addColumn c).columns = vpc.columns ++ [c]
    ∧ (vpc.addColumn c).hasCalcMemo = vpc.hasCalcMemo :=
  ⟨rfl, rfl⟩

/-- C9: the calculated-column detection backing `pullRow` is a lazily
memoized value: once a first `pullRow` call on an instance finds no
calculated column, the cached `false` persists, and every later `pullRow`
returns its source row unchanged even after `addColumn` has appended a
calculated column. -/
theorem hasCalculatedColumn_memoized (cols : List Column)
    (h : cols.any Column.isCalculated = false) (k1 : String) (r1 : RowWithData)
    (c : Column) (k2 : String) (r2 : RowWithData) :
    (((ViewPortColumns.create cols).pullRow k1 r1).2).hasCalcMemo = some false
    ∧ ((((ViewPortColumns.create cols).pullRow k1 r1).2.addColumn c).pullRow k2 r2).1 = r2 := by
  constructor
  · simp [ViewPortColumns.pullRow, ViewPortColumns.create, ViewPortColumns.forceHasCalc, h]
  · simp [ViewPortColumns.pullRow, ViewPortColumns.create, ViewPortColumns.forceHasCalc, h,
      ViewPortColumns.addColumn]

/-- C9 witness: a column set `[qty]` with no calculated column; after a first
`pullRow` and a subsequent `addColumn` of a calculated column, `pullRow`
still passes the source row through unchanged. -/
theorem hasCalculatedColumn_memoized_witness :
    (([⟨"qty", DataType.IntT, none⟩] : List Column).any Column.isCalculated = false)
    ∧ ((((ViewPortColumns.create [⟨"qty", DataType.IntT, none⟩]).pullRow "1"
          ⟨"1", [("qty", VuuValue.VInt 5)]⟩).2.addColumn
            ⟨"calc", DataType.LongT, some (fun _ => VuuValue.VInt 0)⟩).pullRow "2"
          ⟨"2", [("qty", VuuValue.VInt 9)]⟩).1 = ⟨"2", [("qty", VuuValue.VInt 9)]⟩ :=
  ⟨by decide,
    (hasCalculatedColumn_memoized [⟨"qty", DataType.IntT, none⟩] (by decide) "1"
      ⟨"1", [("qty", VuuValue.VInt 5)]⟩ ⟨"calc", DataType.LongT, some (fun _ => VuuValue.VInt 0)⟩
      "2" ⟨"2", [("qty", VuuValue.VInt 9)]⟩).2⟩

theorem runJoins_eq_joinResults :
    ∀ (fs : List JoinDefFunc) (base : List TableDef),
      runJoins (TableDefs.mk base [] []) fs
        = (joinResults base fs).map (fun rs => TableDefs.mk (base ++ rs) [] [])
  | [], base => by simp [runJoins, joinResults]
  | f :: fs, base => by
    simp only [runJoins, joinResults]
    cases hf : f base with
    | none => simp [hf]
    | some j =>
      simp only [hf]
      have hstep : (TableDefs.mk base [] []).addRealized j
          = TableDefs.mk (base ++ [j]) [] [] := rfl
      rw [hstep, runJoins_eq_joinResults fs (base ++ [j])]
      cases joinResults (base ++ [j]) fs with
      | none => rfl
      | some rs => simp

theorem joinResults_append :
    ∀ (l1 l2 : List JoinDefFunc) (base : List TableDef),
      joinResults base (l1 ++ l2)
        = (joinResults base l1).bind
            (fun rs => (joinResults (base ++ rs) l2).map (fun rs2 => rs ++ rs2))
  | [], l2, base => by
    cases h : joinResults base l2 <;> simp [joinResults, h]
  | f :: l1, l2, base => by
    show joinResults base ((f :: l1) ++ l2) = _
    rw [List.cons_append]
    simp only [joinResults]
    cases hf : f base with
    | none => rfl
    | some r =>
      simp only
      rw [joinResults_append l1 l2 (base ++ [r])]
      cases hl : joinResults (base ++ [r]) l1 with
      | none => rfl
      | some rs =>
        simp [List.append_assoc, Function.comp_def]

/-- C2: `asModule()` realizes the pending join functions in declaration
order: each is invoked on the base table definitions extended with the
results of all earlier join functions, its result is appended before the
next runs (so no join observes a later definition), and a join function that
fails on the list it is given makes the whole realization fail. -/
theorem asModule_join_declaration_order (node : ModuleFactoryNode) :
    ((node.asModule).map ViewServerModule.tableDefs
      = (joinResults (node.tableDefs.tableDefs.map Prod.fst) node.tableDefs.joinDefs).map
          (fun rs => node.tableDefs.tableDefs.map Prod.fst ++ rs))
    ∧ (∀ i : Nat,
        runJoins (TableDefs.mk (node.tableDefs.tableDefs.map Prod.fst) [] [])
            (node.tableDefs.joinDefs.take i)
          = (joinResults (node.tableDefs.tableDefs.map Prod.fst)
                (node.tableDefs.joinDefs.take i)).map
              (fun rs => TableDefs.mk (node.tableDefs.tableDefs.map Prod.fst ++ rs) [] []))
    ∧ (∀ (l1 l2 : List JoinDefFunc) (f : JoinDefFunc) (rs : List TableDef),
        node.tableDefs.joinDefs = l1 ++ f :: l2 →
        joinResults (node.tableDefs.tableDefs.map Prod.fst) l1 = some rs →
        f (node.tableDefs.tableDefs.map Prod.fst ++ rs) = none →
        node.asModule = none) := by
  refine ⟨?_, ?_, ?_⟩
  · simp only [ModuleFactoryNode.asModule, runJoins_eq_joinResults]
    cases joinResults (node.tableDefs.tableDefs.map Prod.fst) node.tableDefs.joinDefs with
    | none => rfl
    | some rs => rfl
  · intro i
    exact runJoins_eq_joinResults (node.tableDefs.joinDefs.take i)
      (node.tableDefs.tableDefs.map Prod.fst)
  · intro l1 l2 f rs hsplit hres hfail
    have hjr : joinResults (node.tableDefs.tableDefs.map Prod.fst) node.tableDefs.joinDefs
        = none := by
      rw [hsplit, joinResults_append l1 (f :: l2) _, hres]
      simp [joinResults, hfail]
    simp only [ModuleFactoryNode.asModule, runJoins_eq_joinResults, hjr]
    rfl

/-- C2 witness: the two chained joins of `demoNode` realize after the base
table, in declaration order. -/
theorem asModule_join_declaration_order_witness :
    (demoNode.asModule).map ViewServerModule.tableDefs
      = (joinResults (demoNode.tableDefs.tableDefs.map Prod.fst)
            demoNode.tableDefs.joinDefs).map
          (fun rs => demoNode.tableDefs.tableDefs.map Prod.fst ++ rs) :=
  (asModule_join_declaration_order demoNode).1

/-- C5: `TableDefs.get(name)` returns a realized table definition carrying
the requested name when one exists, and fails (the `Option.get` on a failed
`find` throws, modelled by `none`) when no realized definition matches. -/
theorem tableDefs_get_spec (tds : TableDefs) (n : String) :
    ((∃ td ∈ tds.realizedTableDefs, td.name = n) →
      ∃ td, tds.get n = some td ∧ td ∈ tds.realizedTableDefs ∧ td.name = n)
    ∧ ((∀ td ∈ tds.realizedTableDefs, td.name ≠ n) → tds.get n = none) := by
  constructor
  · intro hex
    have hsome : (tds.realizedTableDefs.find? (fun td => td.name == n)).isSome := by
      rw [List.find?_isSome]
      obtain ⟨td, hmem, hname⟩ := hex
      exact ⟨td, hmem, by simp [hname]⟩
    obtain ⟨td, htd⟩ := Option.isSome_iff_exists.mp hsome
    refine ⟨td, htd, List.mem_of_find?_eq_some htd, ?_⟩
    have := List.find?_some htd
    simpa using this
  · intro hall
    rw [TableDefs.get, List.find?_eq_none]
    intro td hmem
    simp [hall td hmem]

/-- C5 witness: looking up `orders` among the realized definitions finds it;
the hypothesis of the applied direction holds for the concrete table. -/
theorem tableDefs_get_spec_witness :
    (∃ td ∈ (TableDefs.mk [ordersDef] [] []).realizedTableDefs, td.name = "orders")
    ∧ ∃ td, (TableDefs.mk [ordersDef] [] []).get "orders" = some td
        ∧ td ∈ (TableDefs.mk [ordersDef] [] []).realizedTableDefs ∧ td.name = "orders" :=
  ⟨⟨ordersDef, by simp, rfl⟩,
    (tableDefs_get_spec (TableDefs.mk [ordersDef] [] []) "orders").1
      ⟨ordersDef, by simp, rfl⟩⟩

theorem foldl_addRpcHandler_fields :
    ∀ (fs : List (VuuServer → RpcHandler)) (node : ModuleFactoryNode),
      (fs.foldl ModuleFactoryNode.addRpcHandler node).rpc = node.rpc ++ fs
      ∧ (fs.foldl ModuleFactoryNode.addRpcHandler node).tableDefs = node.tableDefs
  | [], node => by simp
  | f :: fs, node => by
    have ih := foldl_addRpcHandler_fields fs (node.addRpcHandler f)
    refine ⟨?_, ?_⟩
    · rw [List.foldl_cons, ih.1]
      simp [ModuleFactoryNode.addRpcHandler]
    · rw [List.foldl_cons, ih.2]
      rfl

/-- C6: only the first registered RPC handler is realized — whatever module
`asModule()` produces after any further `addRpcHandler` calls, its
`rpcHandlerUnrealized` is the head of the originally accumulated handler
list. -/
theorem rpcHandler_first_only (node : ModuleFactoryNode)
    (fs : List (VuuServer → RpcHandler)) (m : ViewServerModule)
    (h : node.rpc ≠ [])
    (hm : (fs.foldl ModuleFactoryNode.addRpcHandler node).asModule = some m) :
    m.rpcHandlerUnrealized = node.rpc.head? := by
  have hrpc := (foldl_addRpcHandler_fields fs node).1
  simp only [ModuleFactoryNode.asModule] at hm
  rcases hrun : runJoins
      (TableDefs.mk ((fs.foldl ModuleFactoryNode.addRpcHandler node).tableDefs.tableDefs.map
        Prod.fst) [] [])
      (fs.foldl ModuleFactoryNode.addRpcHandler node).tableDefs.joinDefs with _ | finalDefs
  · rw [hrun] at hm
    simp at hm
  · rw [hrun] at hm
    simp only [Option.some.injEq] at hm
    have hfield : m.rpcHandlerUnrealized
        = (fs.foldl ModuleFactoryNode.addRpcHandler node).rpc.head? := by
      rw [← hm]
    rw [hfield, hrpc]
    rcases hr : node.rpc with _ | ⟨a, l⟩
    · exact absurd hr h
    · simp

/-- C6 witness: with `rpcOne` registered first and `rpcTwo` appended later,
the realized handler of the assembled module is `rpcOne`. -/
theorem rpcHandler_first_only_witness :
    demoRpcModule.rpcHandlerUnrealized = some rpcOne :=
  (rpcHandler_first_only demoRpcNode [rpcTwo] demoRpcModule
      (by simp [demoRpcNode, withNamespace, ModuleFactoryNode.addRpcHandler]) rfl).trans rfl

/-- C7: each builder operation returns a new registry value extended with
the added element, leaving every other field — and every field of the
original value, which is immutable in the embedding — unchanged. -/
theorem builder_returns_new_value (node : ModuleFactoryNode) (td : TableDef)
    (pf : DataTable → VuuServer → Provider) (jf : JoinDefFunc)
    (rf : VuuServer → RpcHandler) (u p : String) (cb : Bool) :
    ((node.addTable td pf).tableDefs.tableDefs = node.tableDefs.tableDefs ++ [(td, pf)]
      ∧ (node.addTable td pf).tableDefs.realizedTableDefs = node.tableDefs.realizedTableDefs
      ∧ (node.addTable td pf).tableDefs.joinDefs = node.tableDefs.joinDefs
      ∧ (node.addTable td pf).rpc = node.rpc
      ∧ (node.addTable td pf).vsName = node.vsName
      ∧ (node.addTable td pf).staticServedResources = node.staticServedResources)
    ∧ ((node.addJoinTable jf).tableDefs.joinDefs = node.tableDefs.joinDefs ++ [jf]
      ∧ (node.addJoinTable jf).tableDefs.realizedTableDefs = node.tableDefs.realizedTableDefs
      ∧ (node.addJoinTable jf).tableDefs.tableDefs = node.tableDefs.tableDefs
      ∧ (node.addJoinTable jf).rpc = node.rpc
      ∧ (node.addJoinTable jf).vsName = node.vsName
      ∧ (node.addJoinTable jf).staticServedResources = node.staticServedResources)
    ∧ ((node.addRpcHandler rf).rpc = node.rpc ++ [rf]
      ∧ (node.addRpcHandler rf).tableDefs = node.tableDefs
      ∧ (node.addRpcHandler rf).vsName = node.vsName
      ∧ (node.addRpcHandler rf).staticServedResources = node.staticServedResources)
    ∧ ((node.addStaticResource u p cb).staticServedResources
          = node.staticServedResources ++ [StaticServedResource.mk u p cb]
      ∧ (node.addStaticResource u p cb).tableDefs = node.tableDefs
      ∧ (node.addStaticResource u p cb).rpc = node.rpc
      ∧ (node.addStaticResource u p cb).vsName = node.vsName) :=
  ⟨⟨rfl, rfl, rfl, rfl, rfl, rfl⟩, ⟨rfl, rfl, rfl, rfl, rfl, rfl⟩,
    ⟨rfl, rfl, rfl, rfl⟩, ⟨rfl, rfl, rfl, rfl⟩⟩

/-- C8: `getColumnForName(name)` resolves calculated-column reference syntax
to the underlying calculated column's name before lookup, returns a column
of the set carrying the evaluated name when it finds one, and returns `none`
exactly when no column (physical or calculated) carries the evaluated
name. -/
theorem getColumnForName_resolves_calc (vpc : ViewPortColumns) (name : String) :
    (isCalculatedColumnName name = true →
      vpc.getColumnForName name
        = vpc.columns.find? (fun c => c.name == (parseCalcColumn name).1))
    ∧ (∀ c, vpc.getColumnForName name = some c →
        c ∈ vpc.columns ∧ c.name = getEvaluatedName name)
    ∧ (vpc.getColumnForName name = none ↔
        ∀ c ∈ vpc.columns, c.name ≠ getEvaluatedName name) := by
  refine ⟨?_, ?_, ?_⟩
  · intro h
    rw [ViewPortColumns.getColumnForName, getEvaluatedName, if_pos h]
  · intro c hc
    refine ⟨List.mem_of_find?_eq_some hc, ?_⟩
    have := List.find?_some hc
    simpa using this
  · rw [ViewPortColumns.getColumnForName, List.find?_eq_none]
    constructor
    · intro hall c hmem
      simpa using hall c hmem
    · intro hall c hmem
      simp [hall c hmem]

/-- C8 witness: the theorem instantiated at a column set holding a
calculated column `calc` and the reference string `calc:long:qty*2`. -/
theorem getColumnForName_resolves_calc_witness :
    (isCalculatedColumnName "calc:long:qty*2" = true →
      vpcDemo.getColumnForName "calc:long:qty*2"
        = vpcDemo.columns.find? (fun c => c.name == (parseCalcColumn "calc:long:qty*2").1))
    ∧ (∀ c, vpcDemo.getColumnForName "calc:long:qty*2" = some c →
        c ∈ vpcDemo.columns ∧ c.name = getEvaluatedName "calc:long:qty*2")
    ∧ (vpcDemo.getColumnForName "calc:long:qty*2" = none ↔
        ∀ c ∈ vpcDemo.columns, c.name ≠ getEvaluatedName "calc:long:qty*2") :=
  getColumnForName_resolves_calc vpcDemo "calc:long:qty*2"

/-- C10: `columnExists(name)` tests the literal name only, without resolving
calculated-column reference syntax; on the concrete reference
`calc:long:qty*2` the set `vpcDemo` resolves a column through
`getColumnForName` while `columnExists` answers `false`. -/
theorem columnExists_literal_vs_getColumnForName :
    (∀ (vpc : ViewPortColumns) (n : String),
      vpc.columnExists n = true ↔ ∃ c ∈ vpc.columns, c.name = n)
    ∧ (vpcDemo.getColumnForName "calc:long:qty*2").isSome = true
    ∧ vpcDemo.columnExists "calc:long:qty*2" = false := by
  refine ⟨?_, by decide, by decide⟩
  intro vpc n
  simp [ViewPortColumns.columnExists, List.any_eq_true, beq_iff_eq]

/-- C10 witness: the literal-membership direction applied at the concrete
set and a plain physical name. -/
theorem columnExists_literal_vs_getColumnForName_witness :
    vpcDemo.columnExists "qty" = true :=
  (columnExists_literal_vs_getColumnForName.1 vpcDemo "qty").mpr
    ⟨qtyDemoCol, by simp [vpcDemo, ViewPortColumns.create], rfl⟩

end Vuu
